import Mathlib

/-
  Verification of braindecode/models/util.py.

  The file embeds the four operations of the module shallowly:
  - to_dense_prediction_model : the stride-to-dilation graph rewrite
  - get_output_shape          : the shape probe
  - _pad_shift_array / aggregate_probas : the pad/shift/sum aggregation
  - TimeDistributed.forward   : window-wise feature extraction + concatenation

  Python exceptions are embedded as an error enumeration named after the
  specification's error taxonomy.  The map from the concrete Python
  exception classes raised by the source is recorded on each constructor.
-/

/-- Error outcomes of the embedded operations.  Each constructor notes the
concrete Python exception the source raises at the corresponding place. -/
inductive PyError where
  /-- AssertionError from the axis check in to_dense_prediction_model. -/
  | invalidArgument
  /-- AssertionError from the unit-dilation check in to_dense_prediction_model,
  and StopIteration from next(model.parameters()) in get_output_shape. -/
  | invalidState
  /-- NotImplementedError from the rank check in _pad_shift_array. -/
  | notSupported
  /-- numpy AxisError raised inside scipy's log_softmax(x, axis=1) when the
  input array has rank smaller than 2, before _pad_shift_array runs. -/
  | axisError
deriving DecidableEq

/-- A stride or dilation attribute value: in the source these are Python ints
or pairs of ints (the spec restricts them to positive integers, one or two
per module). -/
inductive IntOrPair where
  | scalar : Nat → IntOrPair
  | pair : Nat → Nat → IntOrPair
deriving DecidableEq

/-- One module of the module graph: optional mutable stride and dilation
attributes, mirroring the duck-typed hasattr checks of the source. -/
structure PyModule where
  dilation : Option IntOrPair := none
  stride : Option IntOrPair := none
deriving DecidableEq

/-- Evaluation of the source's check
`module.dilation == 1 or (module.dilation == (1, 1))`. -/
def isUnitDilation (d : IntOrPair) : Bool :=
  d == .scalar 1 || d == .pair 1 1

/-- Writing `v[ax] = stride_so_far[ax]` on a 2-entry vector, for the loop
`for ax in axis: new_dilation[ax] = int(stride_so_far[ax])`.  After the axis
assertion the axes are 0 or 1, so the final branch is unreachable. -/
def setFromStride (so_far : Nat × Nat) (v : Nat × Nat) (ax : Nat) : Nat × Nat :=
  if ax = 0 then (so_far.1, v.2) else if ax = 1 then (v.1, so_far.2) else v

/-- Writing `v[ax] = 1`, for the loop `for ax in axis: new_stride[ax] = 1`. -/
def setOne (v : Nat × Nat) (ax : Nat) : Nat × Nat :=
  if ax = 0 then (1, v.2) else if ax = 1 then (v.1, 1) else v

/-- Normalisation of a scalar stride to a uniform pair, mirroring
`if not hasattr(module.stride, "__len__"): module.stride = (s, s)`. -/
def normPair : IntOrPair → Nat × Nat
  | .scalar n => (n, n)
  | .pair a b => (a, b)

/-- The dilation branch of the traversal body: assert unit dilation, then
write the cumulative stride captured so far onto the selected axes. -/
def applyDilation (axes : List Nat) (so_far : Nat × Nat) (m : PyModule) :
    Except PyError PyModule :=
  match m.dilation with
  | none => .ok m
  | some d =>
    if isUnitDilation d then
      let nd := axes.foldl (setFromStride so_far) (1, 1)
      .ok { m with dilation := some (.pair nd.1 nd.2) }
    else .error .invalidState

/-- The stride branch of the traversal body: normalise to a pair, fold the
module's stride into the running product, then force the selected axes to 1. -/
def applyStride (axes : List Nat) (so_far : Nat × Nat) (m : PyModule) :
    PyModule × (Nat × Nat) :=
  match m.stride with
  | none => (m, so_far)
  | some sv =>
    let s := normPair sv
    let ns := axes.foldl setOne s
    ({ m with stride := some (.pair ns.1 ns.2) }, (so_far.1 * s.1, so_far.2 * s.2))

/-- The traversal loop of to_dense_prediction_model over the module list in
composition order, threading stride_so_far.  The Python function mutates the
graph in place; the embedding returns the rewritten module list. -/
def convGo (axes : List Nat) : Nat × Nat → List PyModule → Except PyError (List PyModule)
  | _, [] => .ok []
  | so_far, m :: ms =>
    match applyDilation axes so_far m with
    | .error e => .error e
    | .ok m1 =>
      match applyStride axes so_far m1 with
      | (m2, so_far2) =>
        match convGo axes so_far2 ms with
        | .error e => .error e
        | .ok rest => .ok (m2 :: rest)

/-- Embedding of to_dense_prediction_model: validate the axis argument
(values must be 2 or 3), shift the axes to 0-based offsets, and run the
traversal with stride_so_far initialised to (1, 1). -/
def to_dense_prediction_model (model : List PyModule) (axis : List Nat) :
    Except PyError (List PyModule) :=
  if axis.all (fun ax => ax == 2 || ax == 3) then
    convGo (axis.map (fun ax => ax - 2)) (1, 1) model
  else .error .invalidArgument

/-- A linear chain of modules, each carrying a unit dilation attribute and a
per-axis stride attribute, used to state the dilation-monotonicity claim. -/
def mkChain (ss : List (Nat × Nat)) : List PyModule :=
  ss.map (fun s => { dilation := some (.pair 1 1), stride := some (.pair s.1 s.2) })

/-- The module list produced by converting a chain with axes (2, 3), starting
from a given cumulative stride: each module receives the cumulative stride as
its dilation and stride (1, 1). -/
def chainResult : Nat × Nat → List (Nat × Nat) → List PyModule
  | _, [] => []
  | so_far, s :: ss =>
    { dilation := some (.pair so_far.1 so_far.2), stride := some (.pair 1 1) } ::
      chainResult (so_far.1 * s.1, so_far.2 * s.2) ss

/-- A dense numeric array: a shape together with a total indexing function.
Only indices componentwise below the shape are meaningful. -/
structure NDArray (α : Type) where
  shape : List Nat
  data : List Nat → α

/-- An index is valid for a shape when it has the same rank and is
componentwise strictly below the shape. -/
def validIdx (shape idx : List Nat) : Prop :=
  List.Forall₂ (fun i d => i < d) idx shape

/-- Extensional equality of arrays: equal shapes and equal entries at every
valid index. -/
def ExtEq {α : Type} (a b : NDArray α) : Prop :=
  a.shape = b.shape ∧ ∀ idx, validIdx a.shape idx → a.data idx = b.data idx

/-- Embedding of scipy.special.log_softmax(x, axis=1): each entry is shifted
by the log of the sum of exponentials along axis 1.  (scipy subtracts the
axis maximum first for floating-point stability; over the reals that shift
cancels and the value is x - log(sum(exp(x))) along axis 1.)  On an array of
rank below 2 numpy raises an axis-out-of-bounds error from the reduction
along axis 1. -/
noncomputable def log_softmax_axis1 (x : NDArray ℝ) : Except PyError (NDArray ℝ) :=
  if x.shape.length < 2 then .error .axisError
  else .ok ⟨x.shape, fun idx =>
    x.data idx -
      Real.log (∑ j ∈ Finset.range (x.shape.getD 1 0), Real.exp (x.data (idx.set 1 j)))⟩

/-- Embedding of _pad_shift_array.  The source zero-pads the last axis on the
right by (n_rows - 1) * stride and then builds an as_strided view whose row
stride is reduced by stride elements; element (i, c, t) of that view reads
the padded buffer at flat position of (i, c, t - i * stride).  When
t < i * stride the read lands in the zero padding at the tail of the
preceding row, and when t - i * stride >= n_windows it lands in row i's own
zero padding, so the in-bounds semantics of the view is: entry (i, c, t)
equals x[i, c, t - i * stride] when 0 <= t - i * stride < n_windows and 0
otherwise.  (For n_rows >= 1 the Nat subtraction n_rows - 1 agrees with the
Python expression x.shape[0] - 1.) -/
def pad_shift_array {α : Type} [Zero α] (x : NDArray α) (stride : Nat) :
    Except PyError (NDArray α) :=
  if x.shape.length ≠ 3 then .error .notSupported
  else
    .ok ⟨[x.shape.getD 0 0, x.shape.getD 1 0,
          (x.shape.getD 0 0 - 1) * stride + x.shape.getD 2 0],
      fun idx =>
        if idx.getD 0 0 * stride ≤ idx.getD 2 0 ∧
            idx.getD 2 0 - idx.getD 0 0 * stride < x.shape.getD 2 0 then
          x.data [idx.getD 0 0, idx.getD 1 0, idx.getD 2 0 - idx.getD 0 0 * stride]
        else 0⟩

/-- numpy sum(axis=0): the leading axis is reduced away. -/
def sumAxis0 {α : Type} [AddCommMonoid α] (x : NDArray α) : NDArray α :=
  ⟨x.shape.tail, fun idx => ∑ i ∈ Finset.range (x.shape.getD 0 0), x.data (i :: idx)⟩

/-- numpy .T: all axes reversed. -/
def transposeND {α : Type} (x : NDArray α) : NDArray α :=
  ⟨x.shape.reverse, fun idx => x.data idx.reverse⟩

/-- Embedding of aggregate_probas: log-softmax over the class axis, then
pad/shift, sum over the sequence axis and transpose. -/
noncomputable def aggregate_probas (logits : NDArray ℝ) (n_windows_stride : Nat) :
    Except PyError (NDArray ℝ) :=
  (log_softmax_axis1 logits).bind fun log_probas =>
    (pad_shift_array log_probas n_windows_stride).map fun shifted =>
      transposeND (sumAxis0 shifted)

/-- The value of the log-softmax (over axis 1) of a rank-3 array at entry
(i, c, w), written out directly. -/
noncomputable def lsmEntry (x : NDArray ℝ) (i c w : Nat) : ℝ :=
  x.data [i, c, w] -
    Real.log (∑ j ∈ Finset.range (x.shape.getD 1 0), Real.exp (x.data [i, j, w]))

/-- The array returned by aggregate_probas on the success path, written out
as one term: the transposed sequence-axis sum of the padded and shifted
log-softmax values.  This names the value inside the .ok result so that it
can be reasoned about directly. -/
noncomputable def aggOut (logits : NDArray ℝ) (r : Nat) : NDArray ℝ :=
  transposeND (sumAxis0
    ⟨[logits.shape.getD 0 0, logits.shape.getD 1 0,
      (logits.shape.getD 0 0 - 1) * r + logits.shape.getD 2 0],
     fun idx =>
       if idx.getD 0 0 * r ≤ idx.getD 2 0 ∧
           idx.getD 2 0 - idx.getD 0 0 * r < logits.shape.getD 2 0 then
         (fun jdx =>
             logits.data jdx -
               Real.log (∑ j ∈ Finset.range (logits.shape.getD 1 0),
                 Real.exp (logits.data (jdx.set 1 j))))
           [idx.getD 0 0, idx.getD 1 0, idx.getD 2 0 - idx.getD 0 0 * r]
       else 0⟩)

/-- A model as seen by get_output_shape: an enumeration of parameters (only
emptiness matters for the probe; dtype and device are abstracted away by
working over the reals) and a forward pass. -/
structure TorchModel where
  params : List Unit
  forward : NDArray ℝ → NDArray ℝ

/-- torch.ones(shape): the all-ones array of the given shape. -/
def onesArr (shape : List Nat) : NDArray ℝ :=
  ⟨shape, fun _ => 1⟩

/-- Embedding of get_output_shape: next(model.parameters()) fails when the
model has no parameters; otherwise one forward pass on a (1, in_chans,
input_window_samples) all-ones input is run and its shape returned. -/
def get_output_shape (model : TorchModel) (in_chans input_window_samples : Nat) :
    Except PyError (List Nat) :=
  if model.params.isEmpty then .error .invalidState
  else .ok (model.forward (onesArr [1, in_chans, input_window_samples])).shape

/-- Indexing x[:, i]: axis 1 is fixed to i and removed. -/
def slice1 {α : Type} (x : NDArray α) (i : Nat) : NDArray α :=
  ⟨x.shape.take 1 ++ x.shape.drop 2, fun idx => x.data (idx.take 1 ++ i :: idx.drop 1)⟩

/-- torch.stack(ts, dim=1): a new axis of length ts.length is inserted at
position 1.  torch.stack of an empty list raises in Python; the empty case
here is junk and every use is guarded by a nonemptiness hypothesis. -/
def stackDim1 {α : Type} [Zero α] (ts : List (NDArray α)) : NDArray α :=
  match ts with
  | [] => ⟨[], fun _ => 0⟩
  | t :: rest =>
    ⟨t.shape.take 1 ++ (rest.length + 1) :: t.shape.drop 1,
     fun idx => ((t :: rest).getD (idx.getD 1 0) ⟨[], fun _ => 0⟩).data
        (idx.take 1 ++ idx.drop 2)⟩

/-- Row-major decoding of a flat index into a multi-index for the given
trailing shape. -/
def unflattenIdx : List Nat → Nat → List Nat
  | [], _ => []
  | _ :: ds, k => k / ds.prod :: unflattenIdx ds (k % ds.prod)

/-- torch.flatten(x, start_dim=1): all axes after the first are merged. -/
def flattenFrom1 {α : Type} (x : NDArray α) : NDArray α :=
  ⟨[x.shape.getD 0 0, (x.shape.drop 1).prod],
   fun idx => x.data (idx.take 1 ++ unflattenIdx (x.shape.drop 1) (idx.getD 1 0))⟩

/-- Embedding of TimeDistributed.forward: extract features of each window
x[:, i], stack along dim 1, flatten from dim 1, and classify. -/
def TimeDistributed_forward (feat_extractor clf : NDArray ℝ → NDArray ℝ)
    (x : NDArray ℝ) : NDArray ℝ :=
  clf (flattenFrom1 (stackDim1
    ((List.range (x.shape.getD 1 0)).map fun i => feat_extractor (slice1 x i))))

/-- Modelled from the spec's description of the concatenation: per batch
element the window features are laid out in window order, window i occupying
slice [i * F, (i + 1) * F) of the flat feature vector, so flat position k
holds entry k % F of window k / F. -/
def windowConcatSpec (feat_extractor : NDArray ℝ → NDArray ℝ) (x : NDArray ℝ)
    (B F n : Nat) : NDArray ℝ :=
  ⟨[B, n * F], fun idx =>
    (feat_extractor (slice1 x (idx.getD 1 0 / F))).data
      [idx.getD 0 0, idx.getD 1 0 % F]⟩

/-
  Theorems.  Helper lemmas first, then one theorem per claim.
-/

lemma convGo_mkChain (ss : List (Nat × Nat)) :
    ∀ so_far, convGo [0, 1] so_far (mkChain ss) = .ok (chainResult so_far ss) := by
  induction ss with
  | nil => intro so_far; rfl
  | cons s ss ih =>
    intro so_far
    have ih' := ih (so_far.1 * s.1, so_far.2 * s.2)
    simp only [mkChain] at ih' ⊢
    simp [convGo, applyDilation, applyStride, isUnitDilation, setFromStride,
      setOne, normPair, chainResult, ih', Prod.fst_one, Prod.snd_one]

lemma chainResult_getD (ss : List (Nat × Nat)) :
    ∀ so_far k, k < ss.length →
      (chainResult so_far ss).getD k { dilation := none, stride := none } =
        { dilation := some (.pair (so_far.1 * ((ss.take k).map Prod.fst).prod)
                                  (so_far.2 * ((ss.take k).map Prod.snd).prod)),
          stride := some (.pair 1 1) } := by
  induction ss with
  | nil => intro so_far k hk; simp at hk
  | cons s ss ih =>
    intro so_far k hk
    cases k with
    | zero => simp [chainResult]
    | succ k =>
      have hk' : k < ss.length := by simpa using hk
      simp only [chainResult, List.getD_cons_succ]
      rw [ih _ k hk']
      simp [mul_assoc]

/-- Claim C1: for a linear chain of modules traversed by
to_dense_prediction_model, each carrying a stride and a dilation attribute,
the dilation written onto module k on an axis equals the product of the
strides of modules 1..k-1 on that axis (strictly upstream, exclusive of
module k's own stride). -/
theorem to_dense_chain_dilation (ss : List (Nat × Nat)) (k : Nat)
    (hk : k < ss.length) :
    ∃ ms, to_dense_prediction_model (mkChain ss) [2, 3] = .ok ms ∧
      ms.getD k { dilation := none, stride := none } =
        { dilation := some (.pair ((ss.take k).map Prod.fst).prod
                                  ((ss.take k).map Prod.snd).prod),
          stride := some (.pair 1 1) } := by
  refine ⟨chainResult (1, 1) ss, ?_, ?_⟩
  · have h := convGo_mkChain ss (1, 1)
    simpa [to_dense_prediction_model] using h
  · rw [chainResult_getD ss (1, 1) k hk]
    simp

/-- Witness for C1 at the chain with strides (2, 2) then (3, 3): the second
module's dilation is the first module's stride, 2 on each axis. -/
theorem to_dense_chain_dilation_witness :
    ∃ ms, to_dense_prediction_model (mkChain [(2, 2), (3, 3)]) [2, 3] = .ok ms ∧
      ms.getD 1 { dilation := none, stride := none } =
        { dilation := some (.pair 2 2), stride := some (.pair 1 1) } := by
  have h := to_dense_chain_dilation [(2, 2), (3, 3)] 1 (by decide)
  simpa using h

lemma applyStride_stride_one (so_far : Nat × Nat) (m : PyModule) (sv : IntOrPair)
    (hsv : (applyStride [0, 1] so_far m).1.stride = some sv) : sv = .pair 1 1 := by
  cases hm : m.stride with
  | none => simp [applyStride, hm] at hsv
  | some sv0 =>
    simp [applyStride, hm, setOne] at hsv
    exact hsv.symm

lemma convGo_strides_one :
    ∀ (ms : List PyModule) (so_far : Nat × Nat) (ms' : List PyModule),
      convGo [0, 1] so_far ms = .ok ms' →
      ∀ m ∈ ms', ∀ sv, m.stride = some sv → sv = .pair 1 1 := by
  intro ms
  induction ms with
  | nil =>
    intro so_far ms' h m hm sv hsv
    cases h
    simp at hm
  | cons m0 ms ih =>
    intro so_far ms' h m hm sv hsv
    unfold convGo at h
    cases hD : applyDilation [0, 1] so_far m0 with
    | error e => rw [hD] at h; cases h
    | ok m1 =>
      rw [hD] at h
      cases hR : convGo [0, 1] (applyStride [0, 1] so_far m1).2 ms with
      | error e => simp only [hR] at h; cases h
      | ok rest =>
        simp only [hR] at h
        cases h
        rcases List.mem_cons.mp hm with hhead | htail
        · subst hhead
          exact applyStride_stride_one so_far m1 sv hsv
        · exact ih _ rest hR m htail sv hsv

/-- Claim C2: after to_dense_prediction_model with axes (2, 3), every module
of the result that carries a stride attribute has stride (1, 1). -/
theorem to_dense_stride_elimination (ms ms' : List PyModule)
    (h : to_dense_prediction_model ms [2, 3] = .ok ms') :
    ∀ m ∈ ms', ∀ sv, m.stride = some sv → sv = .pair 1 1 := by
  have h' : convGo [0, 1] (1, 1) ms = .ok ms' := by
    simpa [to_dense_prediction_model] using h
  exact convGo_strides_one ms (1, 1) ms' h'

/-- Witness for C2 on a one-module graph with scalar stride 3: the converted
module's stride is the pair (1, 1). -/
theorem to_dense_stride_elimination_witness :
    (to_dense_prediction_model [{ dilation := none, stride := some (.scalar 3) }] [2, 3] =
      .ok [{ dilation := none, stride := some (.pair 1 1) }]) ∧
    IntOrPair.pair 1 1 = .pair 1 1 := by
  refine ⟨rfl, ?_⟩
  exact to_dense_stride_elimination
    [{ dilation := none, stride := some (.scalar 3) }]
    [{ dilation := none, stride := some (.pair 1 1) }] rfl
    { dilation := none, stride := some (.pair 1 1) } (by simp)
    (.pair 1 1) rfl

/-- Counterexample to claim C6 as stated: a graph with a stride-bearing but
dilation-free module converts twice without error; the second call returns
.ok, not the InvalidState error, because no module carries a dilation
attribute for the unit-dilation assertion to inspect. -/
theorem to_dense_twice_counterexample :
    (to_dense_prediction_model [{ dilation := none, stride := some (.scalar 2) }] [2, 3] =
      .ok [{ dilation := none, stride := some (.pair 1 1) }]) ∧
    (to_dense_prediction_model [{ dilation := none, stride := some (.pair 1 1) }] [2, 3] =
      .ok [{ dilation := none, stride := some (.pair 1 1) }]) ∧
    (Except.ok [{ dilation := none, stride := some (.pair 1 1) }] ≠
      (.error .invalidState : Except PyError (List PyModule))) := by
  refine ⟨rfl, rfl, ?_⟩
  intro h
  cases h

lemma applyDilation_error_invalidState (axes : List Nat) (so_far : Nat × Nat)
    (m : PyModule) (e : PyError) (h : applyDilation axes so_far m = .error e) :
    e = .invalidState := by
  cases hm : m.dilation with
  | none => simp [applyDilation, hm] at h
  | some d =>
    by_cases hu : isUnitDilation d = true
    · simp [applyDilation, hm, hu] at h
    · simp [applyDilation, hm, hu] at h
      exact h.symm

lemma convGo_nonunit_dilation_error (axes : List Nat) :
    ∀ (ms : List PyModule) (so_far : Nat × Nat),
      (∃ m ∈ ms, ∃ d, m.dilation = some d ∧ isUnitDilation d = false) →
      convGo axes so_far ms = .error .invalidState := by
  intro ms
  induction ms with
  | nil =>
    intro so_far h
    rcases h with ⟨m, hm, _⟩
    simp at hm
  | cons m0 ms ih =>
    intro so_far h
    unfold convGo
    cases hD : applyDilation axes so_far m0 with
    | error e =>
      rw [applyDilation_error_invalidState axes so_far m0 e hD]
    | ok m1 =>
      rcases h with ⟨m, hm, d, hd, hnu⟩
      rcases List.mem_cons.mp hm with hhead | htail
      · exfalso
        subst hhead
        simp [applyDilation, hd, isUnitDilation] at hD
        simp [isUnitDilation] at hnu
        rcases hnu with ⟨h1, h2⟩
        simp [h1, h2] at hD
      · have hc := ih (applyStride axes so_far m1).2 ⟨m, htail, d, hd, hnu⟩
        simp [hc]

/-- Claim C6, amended: a second invocation of to_dense_prediction_model on an
already converted graph fails with InvalidState exactly when the first
conversion wrote a non-unit dilation onto some module; if there is a module
whose dilation is non-unit after the first call (for axes (2, 3)), the second
call returns the InvalidState error.  (Graphs whose converted dilations are
all unit, e.g. with no dilation-bearing module at all, convert a second time
without error, refuting the unconditional claim.) -/
theorem to_dense_second_call_invalid_state (ms ms' : List PyModule)
    (_h1 : to_dense_prediction_model ms [2, 3] = .ok ms')
    (h2 : ∃ m ∈ ms', ∃ d, m.dilation = some d ∧ isUnitDilation d = false) :
    to_dense_prediction_model ms' [2, 3] = .error .invalidState := by
  have h := convGo_nonunit_dilation_error [0, 1] ms' (1, 1) h2
  simpa [to_dense_prediction_model] using h

/-- Witness for the amended C6: a stride-2 module followed by a
dilation-bearing module; the first conversion writes dilation (2, 2) onto the
second module, and the second conversion fails with InvalidState. -/
theorem to_dense_second_call_invalid_state_witness :
    to_dense_prediction_model
      [{ dilation := some (.pair 1 1), stride := some (.pair 1 1) },
       { dilation := some (.pair 2 2), stride := none }] [2, 3] =
      .error .invalidState := by
  refine to_dense_second_call_invalid_state
    [{ dilation := some (.scalar 1), stride := some (.scalar 2) },
     { dilation := some (.scalar 1), stride := none }] _ rfl
    ⟨{ dilation := some (.pair 2 2), stride := none }, by simp,
      .pair 2 2, rfl, rfl⟩

lemma aggregate_probas_eq_ok (logits : NDArray ℝ) (r : Nat)
    (hlen : logits.shape.length = 3) :
    aggregate_probas logits r = .ok (aggOut logits r) := by
  unfold aggregate_probas log_softmax_axis1 pad_shift_array aggOut
  rw [if_neg (by omega)]
  simp only [Except.bind]
  rw [if_neg (by simp [hlen])]
  simp only [Except.map]

lemma aggOut_shape (logits : NDArray ℝ) (S C W r : Nat)
    (h : logits.shape = [S, C, W]) :
    (aggOut logits r).shape = [(S - 1) * r + W, C] := by
  simp [aggOut, transposeND, sumAxis0, h]

lemma aggOut_data (logits : NDArray ℝ) (S C W r : Nat)
    (h : logits.shape = [S, C, W]) (t c : Nat) :
    (aggOut logits r).data [t, c] =
      ∑ i ∈ Finset.range S,
        if i * r ≤ t ∧ t - i * r < W then lsmEntry logits i c (t - i * r) else 0 := by
  simp only [aggOut, transposeND, sumAxis0, h, List.reverse_cons, List.reverse_nil,
    List.nil_append, List.cons_append]
  refine Finset.sum_congr rfl ?_
  intro i _
  simp only [List.getD_cons_zero, List.getD_cons_succ]
  by_cases hc : i * r ≤ t ∧ t - i * r < W
  · rw [if_pos hc, if_pos hc]
    simp [lsmEntry, h, List.set]
  · rw [if_neg hc, if_neg hc]

/-- Claim C3: for a rank-3 logits array of shape (S, C, W) and stride r >= 1,
aggregate_probas applies log-softmax over the class axis and its output entry
at dense position t and class c is the sum, over the sequences i that cover
position t (0 <= t - i * r < W), of the log-softmax value of sequence i at
window t - i * r; sequences not covering t contribute 0. -/
theorem aggregate_probas_overlap_sum (logits : NDArray ℝ) (S C W r : Nat)
    (h : logits.shape = [S, C, W]) (_hS : 1 ≤ S) (_hr : 1 ≤ r) :
    ∃ out, aggregate_probas logits r = .ok out ∧
      ∀ t c, t < (S - 1) * r + W → c < C →
        out.data [t, c] =
          ∑ i ∈ Finset.range S,
            if i * r ≤ t ∧ t - i * r < W then lsmEntry logits i c (t - i * r) else 0 := by
  refine ⟨aggOut logits r, aggregate_probas_eq_ok logits r (by rw [h]; rfl), ?_⟩
  intro t c _ _
  exact aggOut_data logits S C W r h t c

/-- Witness for C3 at a (2, 1, 2) all-zero logits array with stride 1. -/
theorem aggregate_probas_overlap_sum_witness :
    ∃ out, aggregate_probas ⟨[2, 1, 2], fun _ => 0⟩ 1 = .ok out ∧
      ∀ t c, t < (2 - 1) * 1 + 2 → c < 1 →
        out.data [t, c] =
          ∑ i ∈ Finset.range 2,
            if i * 1 ≤ t ∧ t - i * 1 < 2 then
              lsmEntry ⟨[2, 1, 2], fun _ => 0⟩ i c (t - i * 1) else 0 :=
  aggregate_probas_overlap_sum ⟨[2, 1, 2], fun _ => 0⟩ 2 1 2 1 rfl (by decide) (by decide)

/-- Claim C4: for a rank-3 logits array of shape (S, C, W) and stride r >= 1,
the output of aggregate_probas has shape ((S - 1) * r + W, C). -/
theorem aggregate_probas_output_shape (logits : NDArray ℝ) (S C W r : Nat)
    (h : logits.shape = [S, C, W]) (_hS : 1 ≤ S) (_hr : 1 ≤ r) :
    ∃ out, aggregate_probas logits r = .ok out ∧
      out.shape = [(S - 1) * r + W, C] :=
  ⟨aggOut logits r, aggregate_probas_eq_ok logits r (by rw [h]; rfl),
    aggOut_shape logits S C W r h⟩

/-- Witness for C4 at a (3, 2, 4) all-zero logits array with stride 2:
output shape (8, 2). -/
theorem aggregate_probas_output_shape_witness :
    ∃ out, aggregate_probas ⟨[3, 2, 4], fun _ => 0⟩ 2 = .ok out ∧
      out.shape = [(3 - 1) * 2 + 4, 2] :=
  aggregate_probas_output_shape ⟨[3, 2, 4], fun _ => 0⟩ 3 2 4 2 rfl (by decide) (by decide)

/-- Claim C5: with a single sequence (shape (1, C, W)) and any stride,
aggregate_probas returns exactly the class-axis log-softmax of the logits,
transposed to (W, C): entry (t, c) of the output is entry (0, c, t) of the
log-softmax array.  Aggregation has no effect. -/
theorem aggregate_probas_single_sequence (logits : NDArray ℝ) (C W r : Nat)
    (h : logits.shape = [1, C, W]) :
    ∃ out lp, aggregate_probas logits r = .ok out ∧
      log_softmax_axis1 logits = .ok lp ∧
      out.shape = [W, C] ∧
      ∀ t c, t < W → out.data [t, c] = lp.data [0, c, t] := by
  refine ⟨aggOut logits r,
    ⟨logits.shape, fun idx =>
      logits.data idx -
        Real.log (∑ j ∈ Finset.range (logits.shape.getD 1 0),
          Real.exp (logits.data (idx.set 1 j)))⟩,
    aggregate_probas_eq_ok logits r (by rw [h]; rfl), ?_, ?_, ?_⟩
  · unfold log_softmax_axis1
    rw [if_neg (by simp [h])]
  · have hs := aggOut_shape logits 1 C W r h
    simpa using hs
  · intro t c ht
    rw [aggOut_data logits 1 C W r h t c, Finset.sum_range_one,
      if_pos ⟨by simp, by simpa using ht⟩]
    simp [lsmEntry, h]

/-- Witness for C5 at a (1, 2, 3) all-zero logits array with stride 5. -/
theorem aggregate_probas_single_sequence_witness :
    ∃ out lp, aggregate_probas ⟨[1, 2, 3], fun _ => 0⟩ 5 = .ok out ∧
      log_softmax_axis1 ⟨[1, 2, 3], fun _ => 0⟩ = .ok lp ∧
      out.shape = [3, 2] ∧
      ∀ t c, t < 3 → out.data [t, c] = lp.data [0, c, t] :=
  aggregate_probas_single_sequence ⟨[1, 2, 3], fun _ => 0⟩ 2 3 5 rfl

/-- Claim C10: aggregate_probas does not enforce the stride >= 1
precondition; with stride 0 it raises no error and every sequence is aligned
without shift or padding: entry (t, c) of the output is the sum over all S
sequences of the log-softmax value at (i, c, t), and the output shape is
(W, C). -/
theorem aggregate_probas_stride_zero (logits : NDArray ℝ) (S C W : Nat)
    (h : logits.shape = [S, C, W]) (_hS : 1 ≤ S) :
    ∃ out, aggregate_probas logits 0 = .ok out ∧
      out.shape = [W, C] ∧
      ∀ t c, t < W → out.data [t, c] = ∑ i ∈ Finset.range S, lsmEntry logits i c t := by
  refine ⟨aggOut logits 0, aggregate_probas_eq_ok logits 0 (by rw [h]; rfl), ?_, ?_⟩
  · have hs := aggOut_shape logits S C W 0 h
    simpa using hs
  · intro t c ht
    rw [aggOut_data logits S C W 0 h t c]
    refine Finset.sum_congr rfl ?_
    intro i _
    rw [if_pos ⟨by simp, by simpa using ht⟩]
    simp

/-- Witness for C10 at a (2, 2, 2) all-zero logits array with stride 0. -/
theorem aggregate_probas_stride_zero_witness :
    ∃ out, aggregate_probas ⟨[2, 2, 2], fun _ => 0⟩ 0 = .ok out ∧
      out.shape = [2, 2] ∧
      ∀ t c, t < 2 → out.data [t, c] =
        ∑ i ∈ Finset.range 2, lsmEntry ⟨[2, 2, 2], fun _ => 0⟩ i c t :=
  aggregate_probas_stride_zero ⟨[2, 2, 2], fun _ => 0⟩ 2 2 2 rfl (by decide)

/-- Counterexample to claim C7 as stated: a rank-1 input is rejected by the
class-axis log-softmax with the axis error (numpy AxisError), which is a
different error from NotSupported (the NotImplementedError of the rank check
in _pad_shift_array, never reached for rank below 2). -/
theorem aggregate_probas_rank1_counterexample :
    aggregate_probas ⟨[2], fun _ => 0⟩ 1 = .error .axisError ∧
    (Except.error PyError.axisError ≠
      (.error .notSupported : Except PyError (NDArray ℝ))) := by
  constructor
  · unfold aggregate_probas log_softmax_axis1
    rw [if_pos (by simp)]
    rfl
  · simp

/-- Claim C7, amended: an input whose rank is not 3 is always rejected, but
the error depends on the rank: rank 0 or 1 fails inside the class-axis
log-softmax with the axis error, before the rank check of _pad_shift_array
runs, while rank 2 or greater (other than 3) fails with NotSupported from
the rank check. -/
theorem aggregate_probas_rank_rejection (x : NDArray ℝ) (r : Nat)
    (h : x.shape.length ≠ 3) :
    aggregate_probas x r =
      .error (if x.shape.length < 2 then .axisError else .notSupported) := by
  by_cases h2 : x.shape.length < 2
  · rw [if_pos h2]
    unfold aggregate_probas log_softmax_axis1
    rw [if_pos h2]
    rfl
  · rw [if_neg h2]
    unfold aggregate_probas log_softmax_axis1 pad_shift_array
    rw [if_neg h2]
    simp only [Except.bind]
    rw [if_pos (by simpa using h)]
    rfl

/-- Witness for the amended C7 at a rank-4 all-zero array: rejected with
NotSupported. -/
theorem aggregate_probas_rank_rejection_witness :
    aggregate_probas ⟨[1, 1, 1, 1], fun _ => 0⟩ 1 = .error .notSupported := by
  have h := aggregate_probas_rank_rejection ⟨[1, 1, 1, 1], fun _ => 0⟩ 1 (by simp)
  simpa using h

/-- Claim C9: get_output_shape fails with InvalidState (next() on an empty
parameter enumeration) whenever the model exposes no parameters; with at
least one parameter it builds a (1, channel_count, window_length) all-ones
input and returns the shape of one forward pass on it. -/
theorem get_output_shape_spec (model : TorchModel) (c w : Nat) :
    (model.params = [] → get_output_shape model c w = .error .invalidState) ∧
    (model.params ≠ [] → get_output_shape model c w =
      .ok (model.forward (onesArr [1, c, w])).shape) := by
  constructor
  · intro hp
    unfold get_output_shape
    rw [if_pos (by simp [hp])]
  · intro hp
    unfold get_output_shape
    rw [if_neg (by simp [hp])]

/-- Witness for C9: a parameterless model fails with InvalidState, and a
one-parameter model whose forward pass returns a shape-(5) array yields
.ok (5). -/
theorem get_output_shape_spec_witness :
    get_output_shape ⟨[], fun a => a⟩ 2 3 = .error .invalidState ∧
    get_output_shape ⟨[()], fun _ => ⟨[5], fun _ => 0⟩⟩ 2 3 = .ok [5] := by
  constructor
  · exact (get_output_shape_spec ⟨[], fun a => a⟩ 2 3).1 rfl
  · exact (get_output_shape_spec ⟨[()], fun _ => ⟨[5], fun _ => 0⟩⟩ 2 3).2 (by simp)

lemma stackDim1_shape {α : Type} [Zero α] (ts : List (NDArray α)) (B F : Nat)
    (hne : ts ≠ []) (hsh : ∀ t ∈ ts, t.shape = [B, F]) :
    (stackDim1 ts).shape = [B, ts.length, F] := by
  cases ts with
  | nil => exact absurd rfl hne
  | cons t rest => simp [stackDim1, hsh t (by simp)]

lemma stackDim1_data {α : Type} [Zero α] (ts : List (NDArray α)) (hne : ts ≠ [])
    (b j k : Nat) :
    (stackDim1 ts).data [b, j, k] = (ts.getD j ⟨[], fun _ => 0⟩).data [b, k] := by
  cases ts with
  | nil => exact absurd rfl hne
  | cons t rest => rfl

lemma range_map_getD {β : Type} (n j : Nat) (f : Nat → β) (d : β) (hj : j < n) :
    ((List.range n).map f).getD j d = f j := by
  have hlt : j < ((List.range n).map f).length := by simpa using hj
  rw [List.getD_eq_getElem _ _ hlt]
  simp

/-- Claim C8: TimeDistributed_forward equals applying the feature extractor
independently to each of the n windows x[:, i], concatenating the feature
vectors per batch element in window order (window i occupies the i-th slice
of the flat vector), and applying the classifier head to the concatenation,
for every classifier head that respects extensional array equality. -/
theorem TimeDistributed_forward_concat (feat clf : NDArray ℝ → NDArray ℝ)
    (x : NDArray ℝ) (B F n : Nat)
    (hn : x.shape.getD 1 0 = n) (hpos : 0 < n)
    (hF : ∀ i, i < n → (feat (slice1 x i)).shape = [B, F])
    (hclf : ∀ a b, ExtEq a b → clf a = clf b) :
    TimeDistributed_forward feat clf x = clf (windowConcatSpec feat x B F n) := by
  unfold TimeDistributed_forward
  apply hclf
  rw [hn]
  set feats := (List.range n).map (fun i => feat (slice1 x i)) with hfeats
  have hne : feats ≠ [] := by
    simp only [hfeats, ne_eq, List.map_eq_nil_iff, List.range_eq_nil]
    omega
  have hsh : ∀ t ∈ feats, t.shape = [B, F] := by
    intro t ht
    rw [hfeats] at ht
    simp only [List.mem_map, List.mem_range] at ht
    obtain ⟨i, hi, hfe⟩ := ht
    rw [← hfe]
    exact hF i hi
  have hlenf : feats.length = n := by simp [hfeats]
  have hstsh : (stackDim1 feats).shape = [B, n, F] := by
    rw [stackDim1_shape feats B F hne hsh, hlenf]
  have hYsh : (flattenFrom1 (stackDim1 feats)).shape = [B, n * F] := by
    simp [flattenFrom1, hstsh]
  refine ⟨?_, ?_⟩
  · rw [hYsh]
    rfl
  · intro idx hvalid
    rw [hYsh] at hvalid
    cases idx with
    | nil => exact absurd hvalid (by simp [validIdx])
    | cons b idx1 =>
      cases idx1 with
      | nil => exact absurd hvalid (by simp [validIdx])
      | cons k idx2 =>
        cases idx2 with
        | cons k2 idx3 => exact absurd hvalid (by simp [validIdx])
        | nil =>
          have hk : k < n * F := by
            simp only [validIdx, List.forall₂_cons] at hvalid
            exact hvalid.2.1
          have hmul : 0 < n * F := lt_of_le_of_lt (Nat.zero_le k) hk
          have hFpos : 0 < F := by
            rcases Nat.eq_zero_or_pos F with hF0 | hgt
            · rw [hF0, mul_zero] at hmul
              exact absurd hmul (lt_irrefl 0)
            · exact hgt
          have hdiv : k / F < n := (Nat.div_lt_iff_lt_mul hFpos).mpr hk
          show (flattenFrom1 (stackDim1 feats)).data [b, k] = _
          have hunf : unflattenIdx ((stackDim1 feats).shape.drop 1) k = [k / F, k % F] := by
            rw [hstsh]
            simp [unflattenIdx]
          simp only [flattenFrom1, List.getD_cons_succ, List.getD_cons_zero,
            List.take_succ_cons, List.take_zero, hunf]
          rw [show ([b] ++ [k / F, k % F]) = [b, k / F, k % F] from rfl]
          rw [stackDim1_data feats hne b (k / F) (k % F)]
          rw [hfeats, range_map_getD n (k / F) _ _ hdiv]
          rfl

/-- Witness for C8 with one batch element, one window, a constant feature
extractor of shape (1, 1) and a shape-respecting classifier head. -/
theorem TimeDistributed_forward_concat_witness :
    TimeDistributed_forward (fun _ => ⟨[1, 1], fun _ => 0⟩)
        (fun a => ⟨a.shape, fun _ => 0⟩) ⟨[1, 1, 1, 1], fun _ => 0⟩ =
      (fun a => (⟨a.shape, fun _ => 0⟩ : NDArray ℝ))
        (windowConcatSpec (fun _ => ⟨[1, 1], fun _ => 0⟩)
          ⟨[1, 1, 1, 1], fun _ => 0⟩ 1 1 1) :=
  TimeDistributed_forward_concat (fun _ => ⟨[1, 1], fun _ => 0⟩)
    (fun a => ⟨a.shape, fun _ => 0⟩) ⟨[1, 1, 1, 1], fun _ => 0⟩ 1 1 1
    rfl (by decide) (fun _ _ => rfl)
    (fun a b h => congrArg (fun s => (⟨s, fun _ => 0⟩ : NDArray ℝ)) h.1)
